import Mathlib

/-!
Shallow embedding of `sphinx_multiversion/git.py`.

Python strings are modelled as `List Char`; the git subprocess backend is an
oracle record (`GitBackend`) whose results stand for the completed
`subprocess.run` / `check_output` calls; Python exceptions are modelled with
`Except PyErr`.
-/

/-- Python exception kinds that the module can raise. -/
inductive PyErr where
  | valueError : PyErr
  | keyError : PyErr
  | indexError : PyErr
  | envError : PyErr
deriving DecidableEq

/-- Python exception propagation: run the continuation on a success, let a
raised exception propagate. -/
def andThenE {α β : Type} :
    Except PyErr α → (α → Except PyErr β) → Except PyErr β
  | .error e, _ => .error e
  | .ok a, f => f a

/-- ASCII whitespace as recognised by Python's `str.strip`, `str.split()` and
the `\s` regex class (restricted to the ASCII range, which is all that git
reference listings can contain). -/
def pyIsSpace (c : Char) : Bool :=
  c = ' ' || c = '\t' || c = '\n' || c = '\r' || c.toNat = 11 || c.toNat = 12

/-- Python `line.strip()`: drop whitespace from both ends. -/
def pyStrip (s : List Char) : List Char :=
  ((s.dropWhile pyIsSpace).reverse.dropWhile pyIsSpace).reverse

/-- Python `s.split(sep)` for a one-character separator: keeps empty fields,
and the empty string yields one empty field. -/
def pySplit (sep : Char) : List Char → List (List Char)
  | [] => [[]]
  | c :: cs =>
    if c = sep then [] :: pySplit sep cs
    else
      match pySplit sep cs with
      | [] => [[c]]
      | f :: r => (c :: f) :: r

/-- Python `s.partition(sep)[2]` for a one-character separator: everything
after the first occurrence of `sep`, or the empty string if `sep` is absent. -/
def pyPartitionAfter (sep : Char) : List Char → List Char
  | [] => []
  | c :: cs => if c = sep then cs else pyPartitionAfter sep cs

/-- Python `s.rstrip("\n")`: drop every trailing newline character. -/
def pyRstripNl (s : List Char) : List Char :=
  (s.reverse.dropWhile (fun c => c == '\n')).reverse

/-- First whitespace-delimited token of a string: `s.split()[0]`, with `none`
standing for the `IndexError` raised when `s.split()` is empty. -/
def pyFirstToken (s : List Char) : Option (List Char) :=
  match s.dropWhile pyIsSpace with
  | [] => none
  | c :: cs => some (c :: (cs.takeWhile (fun x => !(pyIsSpace x))))

/-- The aware datetime produced by
`datetime.datetime.strptime(s, "%Y-%m-%d %H:%M:%S %z")`:
calendar fields plus the UTC offset in seconds. -/
structure PyDatetime where
  year : Nat
  month : Nat
  day : Nat
  hour : Nat
  minute : Nat
  second : Nat
  tzSeconds : Int
deriving DecidableEq

/-- Numeric value of a decimal digit character. -/
def digitVal (c : Char) : Nat := c.toNat - 48

/-- Exactly four decimal digits (the `%Y` directive). -/
def p4Digits : List Char → Option (Nat × List Char)
  | a :: b :: c :: d :: r =>
    if a.isDigit && b.isDigit && c.isDigit && d.isDigit then
      some (((digitVal a * 10 + digitVal b) * 10 + digitVal c) * 10 + digitVal d, r)
    else none
  | _ => none

/-- One or two decimal digits, two preferred (the `%m`/`%d`/`%H`/`%M`/`%S`
directives; value ranges are checked by the caller, which matches the
backtracking behaviour of `_strptime`'s regex because every one of these
fields is followed by a non-digit literal in the format). -/
def p2or1Digits : List Char → Option (Nat × List Char)
  | c1 :: c2 :: r =>
    if c1.isDigit && c2.isDigit then some (digitVal c1 * 10 + digitVal c2, r)
    else if c1.isDigit then some (digitVal c1, c2 :: r)
    else none
  | [c1] => if c1.isDigit then some (digitVal c1, []) else none
  | [] => none

/-- Exactly two decimal digits (the hour part of `%z`). -/
def pExact2 : List Char → Option (Nat × List Char)
  | a :: b :: r =>
    if a.isDigit && b.isDigit then some (digitVal a * 10 + digitVal b, r)
    else none
  | _ => none

/-- A literal character of the format string. -/
def pLit (c : Char) : List Char → Option (List Char)
  | x :: r => if x = c then some r else none
  | [] => none

/-- One-or-more whitespace (a space in the format string becomes `\s+`). -/
def pSpaces : List Char → Option (List Char)
  | x :: r => if pyIsSpace x then some (r.dropWhile pyIsSpace) else none
  | [] => none

/-- `[0-5]\d` (a minute or second pair inside `%z`). -/
def pTzMM : List Char → Option (Nat × List Char)
  | a :: b :: r =>
    if (a.isDigit && digitVal a ≤ 5) && b.isDigit then
      some (digitVal a * 10 + digitVal b, r)
    else none
  | _ => none

/-- Optional `:` between the `%z` hour and minute pairs. -/
def pOptColon : List Char → List Char
  | ':' :: r => r
  | s => s

/-- Optional fractional-second part `(\.\d{1,6})?` of `%z`; the fraction's
value is dropped (it never matters to this module's callers). -/
def pFracOpt (s : List Char) : List Char :=
  match s with
  | '.' :: r =>
    let ds := (r.takeWhile Char.isDigit).length
    if ds = 0 then s else r.drop (min ds 6)
  | _ => s

/-- Optional seconds part `(:?[0-5]\d(\.\d{1,6})?)?` of `%z`. -/
def pTzSecOpt (s : List Char) : Nat × List Char :=
  match s with
  | ':' :: a :: b :: r =>
    match pTzMM (a :: b :: r) with
    | some (v, r2) => (v, pFracOpt r2)
    | none => (0, s)
  | a :: b :: r =>
    match pTzMM (a :: b :: r) with
    | some (v, r2) => (v, pFracOpt r2)
    | none => (0, s)
  | _ => (0, s)

/-- The `%z` directive: `[+-]\d\d:?[0-5]\d(:?[0-5]\d(\.\d{1,6})?)?` or `Z`,
yielding the offset in seconds; offsets of 24 hours or more are rejected the
way `datetime.timezone` rejects them. -/
def pTz (s : List Char) : Option (Int × List Char) :=
  match s with
  | 'Z' :: r => some (0, r)
  | c :: r =>
    if c = '+' || c = '-' then
      match pExact2 r with
      | none => none
      | some (hh, r1) =>
        match pTzMM (pOptColon r1) with
        | none => none
        | some (mm, r3) =>
          let sr := pTzSecOpt r3
          let total : Int := ((hh * 3600 + mm * 60 + sr.1 : Nat) : Int)
          if total < 24 * 3600 then
            some (if c = '-' then -total else total, sr.2)
          else none
    else none
  | [] => none

/-- Gregorian leap year, as `datetime` computes it. -/
def isLeap (y : Nat) : Bool := (y % 4 = 0 && y % 100 ≠ 0) || y % 400 = 0

/-- Days in a month, as validated by the `datetime` constructor. -/
def daysInMonth (y m : Nat) : Nat :=
  if m = 2 then (if isLeap y then 29 else 28)
  else if m = 4 || m = 6 || m = 9 || m = 11 then 30
  else 31

/-- `datetime.datetime.strptime(s, "%Y-%m-%d %H:%M:%S %z")`: `none` stands
for the `ValueError` raised on any parse or range failure, including the
field-range checks the `datetime` constructor performs. -/
def strptimeISO (s : List Char) : Option PyDatetime := do
  let (year, s) ← p4Digits s
  let s ← pLit '-' s
  let (month, s) ← p2or1Digits s
  let s ← pLit '-' s
  let (day, s) ← p2or1Digits s
  let s ← pSpaces s
  let (hour, s) ← p2or1Digits s
  let s ← pLit ':' s
  let (minute, s) ← p2or1Digits s
  let s ← pLit ':' s
  let (second, s) ← p2or1Digits s
  let s ← pSpaces s
  let (tz, s) ← pTz s
  if s.isEmpty
      && (1 ≤ year && 1 ≤ month && month ≤ 12)
      && (1 ≤ day && day ≤ daysInMonth year month)
      && (hour ≤ 23 && minute ≤ 59 && second ≤ 59) then
    pure (PyDatetime.mk year month day hour minute second tz)
  else none

/-- The `GitRef` namedtuple (type name `VersionRef`). -/
structure GitRef where
  name : List Char
  commit : List Char
  source : List Char
  is_remote : Bool
  refname : List Char
  creatordate : PyDatetime
deriving DecidableEq

/-- A name part acceptable to `(\S+)$`: non-empty, no whitespace. -/
def validName (n : List Char) : Bool :=
  !n.isEmpty && n.all (fun c => !(pyIsSpace c))

/-- `re.match(r"^refs/(heads|tags|remotes/[^/]+)/(\S+)$", refname)`, returning
`(group 1, group 2)`; the three alternatives have mutually exclusive literal
prefixes and `[^/]+` necessarily stops at the first slash, so the
decomposition is the unique one the regex engine finds. -/
def parseRefname (refname : List Char) : Option (List Char × List Char) :=
  if (("refs/heads/").data).isPrefixOf refname then
    let name := refname.drop 11
    if validName name then some ((("heads").data), name) else none
  else if (("refs/tags/").data).isPrefixOf refname then
    let name := refname.drop 10
    if validName name then some ((("tags").data), name) else none
  else if (("refs/remotes/").data).isPrefixOf refname then
    let rest := refname.drop 13
    let remote := rest.takeWhile (fun c => c != '/')
    match rest.drop remote.length with
    | '/' :: name =>
      if !remote.isEmpty && validName name then
        some ((("remotes/").data) ++ remote, name)
      else none
    | _ => none
  else none

/-- What `get_all_refs` does with one line of `git for-each-ref` output. -/
inductive LineResult where
  | skipped : LineResult
  | fatal : PyErr → LineResult
  | yielded : GitRef → LineResult
deriving DecidableEq

/-- The body of `get_all_refs`'s loop for one output line: strip, split on
tabs, require exactly three fields, parse the creator date (a `ValueError`
is fatal), match the refname pattern, and build the `GitRef`; `is_remote`
is true iff `source.startswith("remotes/")`. -/
def processLine (line : List Char) : LineResult :=
  match pySplit '\t' (pyStrip line) with
  | [f0, f1, f2] =>
    match strptimeISO f2 with
    | none => .fatal .valueError
    | some d =>
      match parseRefname f1 with
      | none => .skipped
      | some sn =>
        .yielded
          { name := sn.2, commit := f0, source := sn.1,
            is_remote := (("remotes/").data).isPrefixOf sn.1,
            refname := f1, creatordate := d }
  | _ => .skipped

/-- `get_all_refs` over the listing's lines: skipped lines are dropped, a
fatal line aborts the whole enumeration, other lines yield their `GitRef`
in order. -/
def scanLines : List (List Char) → Except PyErr (List GitRef)
  | [] => .ok []
  | l :: ls =>
    match processLine l with
    | .skipped => scanLines ls
    | .fatal e => .error e
    | .yielded r => andThenE (scanLines ls) (fun rs => .ok (r :: rs))

/-!
### Whitelist patterns

`get_refs` tests whitelists with `re.match(pattern, candidate)`: the pattern
must match at the start of the candidate but need not cover all of it. The
pattern language fragment the module needs is embedded as an AST with a
Brzozowski-derivative matcher. An end anchor `$` is position dependent, so
the matcher tracks two nullability notions: whether the regex can accept the
empty string in the middle of the input, and at its very end.
-/

/-- Regular-expression AST: empty language, empty string, a one-character
class, concatenation, alternation, Kleene star, and the `$` anchor. Under
`re.match` a leading `^` is a no-op, so it has no constructor. -/
inductive Regex where
  | emptyR : Regex
  | eps : Regex
  | cls : (Char → Bool) → Regex
  | seq : Regex → Regex → Regex
  | alt : Regex → Regex → Regex
  | star : Regex → Regex
  | eos : Regex

/-- Does the regex accept the empty string at a non-final position
(`$` does not)? -/
def Regex.nullMid : Regex → Bool
  | .emptyR => false
  | .eps => true
  | .cls _ => false
  | .eos => false
  | .seq a b => a.nullMid && b.nullMid
  | .alt a b => a.nullMid || b.nullMid
  | .star _ => true

/-- Does the regex accept the empty string at the end of the input
(`$` does)? -/
def Regex.nullEnd : Regex → Bool
  | .emptyR => false
  | .eps => true
  | .cls _ => false
  | .eos => true
  | .seq a b => a.nullEnd && b.nullEnd
  | .alt a b => a.nullEnd || b.nullEnd
  | .star _ => true

/-- Brzozowski derivative with respect to one (non-final-position) character. -/
def Regex.deriv : Regex → Char → Regex
  | .emptyR, _ => .emptyR
  | .eps, _ => .emptyR
  | .eos, _ => .emptyR
  | .cls p, c => if p c then .eps else .emptyR
  | .seq a b, c =>
    if a.nullMid then .alt (.seq (a.deriv c) b) (b.deriv c)
    else .seq (a.deriv c) b
  | .alt a b, c => .alt (a.deriv c) (b.deriv c)
  | .star r, c => .seq (r.deriv c) (.star r)

/-- Worker for `re.match`: accept as soon as the regex accepted some prefix
of the remaining input. -/
def Regex.reMatchAux : Regex → List Char → Bool
  | r, [] => r.nullEnd
  | r, c :: cs => r.nullMid || Regex.reMatchAux (r.deriv c) cs

/-- `bool(re.match(r, s))`: does `r` match some prefix of `s`
(anchored at the start, not necessarily covering all of `s`)? -/
def Regex.reMatch (r : Regex) (s : List Char) : Bool :=
  Regex.reMatchAux r s

/-- Exact match of `r` against `p`, where `atEnd` says whether the position
right after `p` is the end of the whole input (this is where `$` may match). -/
def Regex.matchHere : Regex → List Char → Bool → Bool
  | r, [], atEnd => if atEnd then r.nullEnd else r.nullMid
  | r, c :: cs, atEnd => Regex.matchHere (r.deriv c) cs atEnd

/-- A single literal character. -/
def Regex.chr (c : Char) : Regex := .cls (fun x => x == c)

/-- A literal string. -/
def Regex.lit (s : List Char) : Regex :=
  s.foldr (fun c r => .seq (.chr c) r) .eps

/-- `r+`. -/
def Regex.plus (r : Regex) : Regex := .seq r (.star r)

/-- `\d`. -/
def Regex.digit : Regex := .cls Char.isDigit

/-!
### The filtering pipeline of `get_refs`
-/

/-- The `config` object fields that `get_refs` reads. `None` whitelists are
`none`; a pattern string is its compiled AST. -/
structure Config where
  smv_tag_whitelist : Option Regex
  smv_branch_whitelist : Option Regex
  smv_remote_whitelist : Option Regex
  smv_refs_override_suffix : List Char

/-- The git subprocess backend: each field stands for the completed run of
one command shape, keyed by the only argument that varies. `.error .envError`
stands for the invocation itself failing (e.g. `git` unavailable), which is
the only way these `subprocess.run` calls raise. -/
structure GitBackend where
  /-- `git show-ref <candidate>` with captured output:
  `(returncode, decoded stdout)`. -/
  showRef : List Char → Except PyErr (Int × List Char)
  /-- `git branch <candidate> --track origin/<candidate>`: returncode. -/
  branchTrack : List Char → Except PyErr Int
  /-- `git cat-file -e <spec>` with devnull output: returncode. -/
  catFile : List Char → Except PyErr Int

/-- The object spec `file_exists` queries: replace the host path separator
`os.sep` by `/` when it differs, and format `refname:filename`. -/
def catFileSpec (sep : Char) (refname filename : List Char) : List Char :=
  refname ++ ':' ::
    (if sep = '/' then filename
     else filename.map (fun c => if c = sep then '/' else c))

/-- `file_exists(gitroot, refname, filename)` proper: run the query and
report whether the returncode is zero; only the invocation itself can
raise. -/
def file_exists (b : GitBackend) (sep : Char) (refname filename : List Char) :
    Except PyErr Bool :=
  andThenE (b.catFile (catFileSpec sep refname filename))
    (fun rc => .ok (rc == 0))

/-- The category whitelist step of `get_refs` (the `if/elif/else` chain):
`true` means the reference survives to the override and required-file steps,
`false` means `continue`. -/
def categoryAccept (cfg : Config) (ref : GitRef) : Bool :=
  if ref.source = ("tags").data then
    match cfg.smv_tag_whitelist with
    | none => false
    | some wl => wl.reMatch ref.name
  else if ref.source = ("heads").data then
    match cfg.smv_branch_whitelist with
    | none => false
    | some wl => wl.reMatch ref.name
  else
    match cfg.smv_remote_whitelist, ref.is_remote with
    | some rwl, true =>
      if !(rwl.reMatch (pyPartitionAfter '/' ref.source)) then false
      else
        match cfg.smv_branch_whitelist with
        | none => false
        | some bwl => bwl.reMatch ref.name
    | _, _ => false

/-- The override block of `get_refs`: with a non-empty suffix, look up
`<name><suffix>` via `git show-ref`; on returncode 0 take the first
whitespace token of the output as the override commit (an empty output makes
`split()[0]` raise `IndexError`), attempt the best-effort tracking-branch
creation (its returncode is only logged), and replace `refname` and `commit`.
With the empty suffix, or when the candidate does not exist, the reference
passes through unchanged. -/
def applyOverride (b : GitBackend) (suffix : List Char) (ref : GitRef) :
    Except PyErr GitRef :=
  if suffix = [] then .ok ref
  else
    andThenE (b.showRef (ref.name ++ suffix)) (fun p =>
      if p.1 = 0 then
        match pyFirstToken p.2 with
        | none => .error .indexError
        | some tok =>
          andThenE (b.branchTrack (ref.name ++ suffix)) (fun _ =>
            .ok { ref with refname := ref.name ++ suffix, commit := tok })
      else .ok ref)

/-- The `missing_files` list comprehension: the required files, in order,
that are not `"."` and are absent at `refname`. -/
def missingFiles (b : GitBackend) (sep : Char) (refname : List Char) :
    List (List Char) → Except PyErr (List (List Char))
  | [] => .ok []
  | f :: fs =>
    if f = (".").data then missingFiles b sep refname fs
    else
      andThenE (file_exists b sep refname f) (fun ex =>
        andThenE (missingFiles b sep refname fs) (fun rest =>
          .ok (if ex then rest else f :: rest)))

/-- One iteration of `get_refs`'s loop after scanning: category whitelist,
then override resolution, then the required-file check against the (possibly
overridden) refname; `some` is a yielded reference, `none` a `continue`. -/
def processRef (b : GitBackend) (cfg : Config) (sep : Char)
    (files : List (List Char)) (ref : GitRef) : Except PyErr (Option GitRef) :=
  if categoryAccept cfg ref then
    andThenE (applyOverride b cfg.smv_refs_override_suffix ref) (fun ref2 =>
      andThenE (missingFiles b sep ref2.refname files) (fun missing =>
        if missing.isEmpty then .ok (some ref2) else .ok none))
  else .ok none

/-- `get_refs`'s loop over the scanned references. -/
def filterRefs (b : GitBackend) (cfg : Config) (sep : Char)
    (files : List (List Char)) : List GitRef → Except PyErr (List GitRef)
  | [] => .ok []
  | r :: rs =>
    andThenE (processRef b cfg sep files r) (fun o =>
      andThenE (filterRefs b cfg sep files rs) (fun rest =>
        .ok (match o with | some r2 => r2 :: rest | none => rest)))

/-- `get_refs(gitroot, config, files)` as a whole: scan the listing's lines,
then filter. -/
def get_refs (b : GitBackend) (cfg : Config) (sep : Char)
    (files : List (List Char)) (lines : List (List Char)) :
    Except PyErr (List GitRef) :=
  andThenE (scanLines lines) (filterRefs b cfg sep files)

/-- `get_toplevel_path`: the decoded output of
`git rev-parse --show-toplevel` with `output.rstrip("\n")` applied. -/
def get_toplevel_path (output : List Char) : List Char :=
  pyRstripNl output

/-- The two logging levels the module can select. -/
inductive LogLevel where
  | debug : LogLevel
  | info : LogLevel
deriving DecidableEq

/-- The module-level statement
`level = logging.DEBUG if os.environ["DEBUG"] else logging.INFO`, run when
the module is imported, against the process environment: a missing `DEBUG`
raises `KeyError`, a non-empty value is truthy and selects `DEBUG`, the
empty string selects `INFO`. -/
def moduleInitLevel (env : List Char → Option (List Char)) :
    Except PyErr LogLevel :=
  match env (("DEBUG").data) with
  | none => .error .keyError
  | some v => .ok (if v.isEmpty then .info else .debug)

/-!
### Concrete fixtures used by the witness theorems
-/

/-- AST of the pattern `^v\d+\.\d+$` (the leading `^` is a no-op under
`re.match` and has no constructor). -/
def exactVersionPat : Regex :=
  .seq (.chr 'v')
    (.seq (.plus .digit) (.seq (.chr '.') (.seq (.plus .digit) .eos)))

/-- A fixed creator date. -/
def dt0 : PyDatetime := PyDatetime.mk 2020 1 1 0 0 0 0

/-- A scanned tag reference `refs/tags/v1.0`. -/
def refTagsW : GitRef :=
  { name := ("v1.0").data, commit := ("c1").data, source := ("tags").data,
    is_remote := false, refname := ("refs/tags/v1.0").data,
    creatordate := dt0 }

/-- A scanned branch reference `refs/heads/main`. -/
def refHeadsW : GitRef :=
  { name := ("main").data, commit := ("c2").data, source := ("heads").data,
    is_remote := false, refname := ("refs/heads/main").data,
    creatordate := dt0 }

/-- A scanned remote-tracking reference `refs/remotes/origin/main`. -/
def refRemoteW : GitRef :=
  { name := ("main").data, commit := ("c3").data,
    source := ("remotes/origin").data, is_remote := true,
    refname := ("refs/remotes/origin/main").data, creatordate := dt0 }

/-- A config with only a tag whitelist (pattern `v`), overrides disabled. -/
def cfgTagsW : Config :=
  { smv_tag_whitelist := some (Regex.lit (("v").data)),
    smv_branch_whitelist := none, smv_remote_whitelist := none,
    smv_refs_override_suffix := [] }

/-- A config with remote whitelist `origin` and branch whitelist `main`,
overrides disabled. -/
def cfgRemoteW : Config :=
  { smv_tag_whitelist := none,
    smv_branch_whitelist := some (Regex.lit (("main").data)),
    smv_remote_whitelist := some (Regex.lit (("origin").data)),
    smv_refs_override_suffix := [] }

/-- A backend where no override candidate exists and every file exists. -/
def bAllOkW : GitBackend :=
  { showRef := fun _ => .ok (1, []), branchTrack := fun _ => .ok 0,
    catFile := fun _ => .ok 0 }

/-- A backend where the override candidate resolves to commit `deadbeef`. -/
def bOverrideW : GitBackend :=
  { showRef := fun _ => .ok (0, ("deadbeef refs/heads/main-ov\n").data),
    branchTrack := fun _ => .ok 0, catFile := fun _ => .ok 0 }

/-- A backend whose existence query reports "not found" (returncode 1). -/
def bMissingW : GitBackend :=
  { showRef := fun _ => .ok (1, []), branchTrack := fun _ => .ok 0,
    catFile := fun _ => .ok 1 }

/-- What overriding `refHeadsW` with suffix `-ov` against `bOverrideW`
produces. -/
def refHeadsOvW : GitRef :=
  { refHeadsW with refname := ("main-ov").data, commit := ("deadbeef").data }

/-- A listing line with three fields, a matching refname and an unparseable
creator date. -/
def badLineC4 : List Char := ("c\trefs/heads/main\tbogus").data

/-- A listing line with three fields, a non-matching refname and an
unparseable creator date. -/
def badLineC9 : List Char := ("c\tHEAD\tbogus").data

/-- A listing line with three fields, a non-matching refname and an
unparseable creator date (distinct fixture for the scan-abort witness). -/
def badLineC6 : List Char := ("c\tx\tnope").data

/-- A fully well-formed listing line. -/
def goodLineC4 : List Char :=
  ("c\trefs/heads/main\t2020-01-01 00:00:00 +0000").data

/-- The reference scanned from `goodLineC4`. -/
def goodRefC4 : GitRef :=
  { name := ("main").data, commit := ("c").data, source := ("heads").data,
    is_remote := false, refname := ("refs/heads/main").data,
    creatordate := dt0 }

/-!
### Helper lemmas
-/

theorem andThenE_ok {α β : Type} (a : α) (f : α → Except PyErr β) :
    andThenE (.ok a) f = f a := rfl

theorem andThenE_error {α β : Type} (e : PyErr) (f : α → Except PyErr β) :
    andThenE (.error e) f = .error e := rfl

/-- On a line with exactly three tab-separated fields, `processLine` is the
date parse followed by the refname parse. -/
theorem processLine_three (f0 f1 f2 line : List Char)
    (hsplit : pySplit '\t' (pyStrip line) = [f0, f1, f2]) :
    processLine line =
      match strptimeISO f2 with
      | none => .fatal .valueError
      | some d =>
        match parseRefname f1 with
        | none => .skipped
        | some sn =>
          .yielded
            { name := sn.2, commit := f0, source := sn.1,
              is_remote := (("remotes/").data).isPrefixOf sn.1,
              refname := f1, creatordate := d } := by
  unfold processLine
  rw [hsplit]

/-- A fatal line aborts the whole enumeration, whatever precedes or follows
it, as long as no earlier line is itself fatal. -/
theorem scanLines_append_fatal (line : List Char) (e : PyErr)
    (hl : processLine line = .fatal e) :
    ∀ pre : List (List Char),
      (∀ l ∈ pre, ∀ e2, processLine l ≠ .fatal e2) →
      ∀ post, scanLines (pre ++ line :: post) = .error e := by
  intro pre
  induction pre with
  | nil =>
    intro _ post
    show scanLines (line :: post) = .error e
    unfold scanLines
    rw [hl]
  | cons l pre ih =>
    intro hpre post
    have hih := ih (fun l2 hl2 => hpre l2 (List.mem_cons_of_mem l hl2)) post
    have hl2 := hpre l (List.mem_cons_self l pre)
    show scanLines (l :: (pre ++ line :: post)) = .error e
    cases hcl : processLine l with
    | skipped =>
      have hstep : scanLines (l :: (pre ++ line :: post)) =
          scanLines (pre ++ line :: post) := by
        conv_lhs => rw [scanLines]
        rw [hcl]
      rw [hstep, hih]
    | fatal e2 => exact absurd hcl (hl2 e2)
    | yielded r =>
      have hstep : scanLines (l :: (pre ++ line :: post)) =
          andThenE (scanLines (pre ++ line :: post))
            (fun rs => .ok (r :: rs)) := by
        conv_lhs => rw [scanLines]
        rw [hcl]
      rw [hstep, hih, andThenE_error]

/-- When every non-`"."` probe completes, `missingFiles` completes and is
empty exactly when every non-`"."` required file exists. -/
theorem missingFiles_ok_iff (b : GitBackend) (sep : Char) (rn : List Char) :
    ∀ files : List (List Char),
      (∀ f ∈ files, f ≠ (".").data →
        ∃ bl, file_exists b sep rn f = .ok bl) →
      ∃ ms, missingFiles b sep rn files = .ok ms ∧
        (ms = [] ↔ ∀ f ∈ files, f ≠ (".").data →
          file_exists b sep rn f = .ok true) := by
  intro files
  induction files with
  | nil => exact fun _ => ⟨[], rfl, by simp⟩
  | cons f fs ih =>
    intro h
    obtain ⟨ms, hms, hiff⟩ :=
      ih (fun g hg hgd => h g (List.mem_cons_of_mem f hg) hgd)
    by_cases hf : f = (".").data
    · refine ⟨ms, ?_, ?_⟩
      · conv_lhs => rw [missingFiles]
        rw [if_pos hf, hms]
      · rw [hiff]
        constructor
        · intro hall g hg hgd
          rcases List.mem_cons.mp hg with hgf | hgfs
          · exact absurd (hgf.trans hf) hgd
          · exact hall g hgfs hgd
        · exact fun hall g hg hgd => hall g (List.mem_cons_of_mem f hg) hgd
    · obtain ⟨bl, hbl⟩ := h f (List.mem_cons_self f fs) hf
      refine ⟨if bl then ms else f :: ms, ?_, ?_⟩
      · conv_lhs => rw [missingFiles]
        rw [if_neg hf, hbl, andThenE_ok, hms, andThenE_ok]
      · cases bl with
        | true =>
          simp only [if_true]
          rw [hiff]
          constructor
          · intro hall g hg hgd
            rcases List.mem_cons.mp hg with hgf | hgfs
            · rw [hgf]; exact hbl
            · exact hall g hgfs hgd
          · exact fun hall g hg hgd => hall g (List.mem_cons_of_mem f hg) hgd
        | false =>
          simp only [if_false]
          constructor
          · intro hcontra; exact absurd hcontra (List.cons_ne_nil f ms)
          · intro hall
            have hft := hall f (List.mem_cons_self f fs) hf
            rw [hbl] at hft
            injection hft with hft2
            exact absurd hft2 (by decide)

/-- Entries equal to `"."` never contribute to `missingFiles`: they are
filtered out before any probe happens. -/
theorem missingFiles_drop_dot (b : GitBackend) (sep : Char) (rn : List Char) :
    ∀ files : List (List Char),
      missingFiles b sep rn files =
        missingFiles b sep rn
          (files.filter (fun f => !(f == (".").data))) := by
  intro files
  induction files with
  | nil => rfl
  | cons f fs ih =>
    by_cases hf : f = (".").data
    · have hp : ¬((!(f == (".").data)) = true) := by simp [hf]
      rw [List.filter_cons, if_neg hp]
      have hstep : missingFiles b sep rn (f :: fs) =
          missingFiles b sep rn fs := by
        conv_lhs => rw [missingFiles]
        rw [if_pos hf]
      rw [hstep, ih]
    · have hp : (!(f == (".").data)) = true := by simp [hf]
      rw [List.filter_cons, if_pos hp]
      conv_lhs => rw [missingFiles]
      conv_rhs => rw [missingFiles]
      rw [if_neg hf, if_neg hf, ← ih]

/-- Any list is a run of leading newlines followed by its
`dropWhile (· == newline)` part, whose head is not a newline. -/
theorem dropNl_spec (t : List Char) :
    ∃ k, t = List.replicate k '\n' ++ t.dropWhile (fun c => c == '\n') ∧
      (t.dropWhile (fun c => c == '\n')).head? ≠ some '\n' := by
  induction t with
  | nil => exact ⟨0, rfl, by simp⟩
  | cons c t ih =>
    by_cases hc : c = '\n'
    · have hd : ((c :: t).dropWhile (fun c => c == '\n')) =
          t.dropWhile (fun c => c == '\n') := by
        rw [List.dropWhile_cons]
        simp [hc]
      obtain ⟨k, hk, hh⟩ := ih
      refine ⟨k + 1, ?_, ?_⟩
      · rw [hd, List.replicate_succ, List.cons_append, hc]
        exact congrArg (List.cons '\n') hk
      · rw [hd]; exact hh
    · have hd : ((c :: t).dropWhile (fun c => c == '\n')) = c :: t := by
        rw [List.dropWhile_cons]
        simp [hc]
      refine ⟨0, ?_, ?_⟩
      · rw [hd]; rfl
      · rw [hd]
        simp [hc]

/-- `re.match` semantics: the matcher accepts `s` exactly when the regex
exactly matches some prefix of `s` (where the end anchor can only fire if
that prefix is all of `s`). -/
theorem reMatchAux_iff (s : List Char) :
    ∀ r : Regex, Regex.reMatchAux r s = true ↔
      ∃ p q, s = p ++ q ∧ Regex.matchHere r p q.isEmpty = true := by
  induction s with
  | nil =>
    intro r
    constructor
    · intro h
      exact ⟨[], [], rfl, h⟩
    · rintro ⟨p, q, hpq, hm⟩
      obtain ⟨hp, hq⟩ := List.append_eq_nil.mp hpq.symm
      subst hp
      subst hq
      exact hm
  | cons c cs ih =>
    intro r
    constructor
    · intro h
      replace h : (r.nullMid || Regex.reMatchAux (r.deriv c) cs) = true := h
      rw [Bool.or_eq_true] at h
      rcases h with hn | hr
      · exact ⟨[], c :: cs, rfl, hn⟩
      · obtain ⟨p, q, hpq, hm⟩ := (ih (r.deriv c)).mp hr
        exact ⟨c :: p, q, by rw [List.cons_append, ← hpq], hm⟩
    · rintro ⟨p, q, hpq, hm⟩
      show (r.nullMid || Regex.reMatchAux (r.deriv c) cs) = true
      rw [Bool.or_eq_true]
      cases p with
      | nil =>
        rw [List.nil_append] at hpq
        subst hpq
        exact Or.inl hm
      | cons hd tl =>
        rw [List.cons_append] at hpq
        injection hpq with h1 h2
        subst h1
        exact Or.inr ((ih (r.deriv c)).mpr ⟨tl, q, h2, hm⟩)

/-!
### The claims
-/

/-- C1: a scanned remote reference (source `remotes/<remote>`, `is_remote`
true) is accepted by `get_refs`'s category step iff the remote whitelist is
configured and matches the segment of `source` after the first `/` AND the
branch whitelist is configured and matches the name; with no remote
whitelist the reference is rejected (default "not a branch or tag" case). -/
theorem c1_remote_requires_both_whitelists (cfg : Config) (b : GitBackend)
    (sep : Char) (files : List (List Char)) (ref : GitRef) (rem : List Char)
    (hsrc : ref.source = (("remotes/").data) ++ rem)
    (hrem : ref.is_remote = true) :
    (categoryAccept cfg ref = true ↔
      ∃ rwl bwl, cfg.smv_remote_whitelist = some rwl ∧
        rwl.reMatch rem = true ∧
        cfg.smv_branch_whitelist = some bwl ∧
        bwl.reMatch ref.name = true) ∧
    (cfg.smv_remote_whitelist = none →
      categoryAccept cfg ref = false ∧
      processRef b cfg sep files ref = .ok none) := by
  have hne1 : ¬(ref.source = ("tags").data) := by
    rw [hsrc]
    intro hcontra
    have hlen := congrArg List.length hcontra
    rw [List.length_append] at hlen
    have h8 : ((("remotes/").data)).length = 8 := rfl
    have h4 : ((("tags").data)).length = 4 := rfl
    rw [h8, h4] at hlen
    omega
  have hne2 : ¬(ref.source = ("heads").data) := by
    rw [hsrc]
    intro hcontra
    have hlen := congrArg List.length hcontra
    rw [List.length_append] at hlen
    have h8 : ((("remotes/").data)).length = 8 := rfl
    have h5 : ((("heads").data)).length = 5 := rfl
    rw [h8, h5] at hlen
    omega
  have hpart : pyPartitionAfter '/' ref.source = rem := by
    rw [hsrc]
    exact rfl
  constructor
  · unfold categoryAccept
    rw [if_neg hne1, if_neg hne2, hrem, hpart]
    cases hrw : cfg.smv_remote_whitelist with
    | none => simp
    | some rwl =>
      cases hbm : rwl.reMatch rem with
      | false => simp [hbm]
      | true =>
        cases hbw : cfg.smv_branch_whitelist with
        | none => simp
        | some bwl => simp [hbm]
  · intro hnone
    have hfalse : categoryAccept cfg ref = false := by
      unfold categoryAccept
      rw [if_neg hne1, if_neg hne2, hnone, hrem]
    refine ⟨hfalse, ?_⟩
    unfold processRef
    rw [hfalse]
    simp

/-- C1 witness: a concrete remote reference, config with both whitelists
set, accepted; and with the remote whitelist unset, rejected. -/
theorem c1_remote_witness :
    categoryAccept cfgRemoteW refRemoteW = true ∧
    categoryAccept cfgTagsW refRemoteW = false := by
  constructor
  · exact (c1_remote_requires_both_whitelists cfgRemoteW bAllOkW '/' []
      refRemoteW (("origin").data) rfl rfl).1.mpr
      ⟨Regex.lit (("origin").data), Regex.lit (("main").data),
        rfl, by decide, rfl, by decide⟩
  · exact ((c1_remote_requires_both_whitelists cfgTagsW bAllOkW '/' []
      refRemoteW (("origin").data) rfl rfl).2 rfl).1

/-- C2: override resolution changes at most `commit` and `refname`: the
empty suffix passes the reference through unchanged, and whenever it
returns a reference, `name`, `source`, `is_remote` and `creatordate` are
those of the input verbatim. -/
theorem c2_override_changes_only_commit_refname (b : GitBackend)
    (suffix : List Char) (ref ref2 : GitRef) :
    (suffix = [] → applyOverride b suffix ref = .ok ref) ∧
    (applyOverride b suffix ref = .ok ref2 →
      ref2.name = ref.name ∧ ref2.source = ref.source ∧
      ref2.is_remote = ref.is_remote ∧
      ref2.creatordate = ref.creatordate) := by
  constructor
  · intro h
    unfold applyOverride
    rw [if_pos h]
  · intro h
    unfold applyOverride at h
    by_cases hs : suffix = []
    · rw [if_pos hs] at h
      injection h with h2
      subst h2
      exact ⟨rfl, rfl, rfl, rfl⟩
    · rw [if_neg hs] at h
      cases hsr : b.showRef (ref.name ++ suffix) with
      | error e =>
        rw [hsr, andThenE_error] at h
        exact absurd h (by simp)
      | ok p =>
        obtain ⟨rc, out⟩ := p
        rw [hsr, andThenE_ok] at h
        by_cases hrc : rc = 0
        · replace h :
              (match pyFirstToken out with
               | none => (.error .indexError : Except PyErr GitRef)
               | some tok =>
                 andThenE (b.branchTrack (ref.name ++ suffix)) (fun _ =>
                   .ok { ref with refname := ref.name ++ suffix,
                                  commit := tok })) = .ok ref2 := by
            rw [← h]
            exact (if_pos hrc).symm
          cases hft : pyFirstToken out with
          | none =>
            rw [hft] at h
            exact absurd h (by simp)
          | some tok =>
            rw [hft] at h
            replace h :
                andThenE (b.branchTrack (ref.name ++ suffix)) (fun _ =>
                  (.ok { ref with refname := ref.name ++ suffix,
                                  commit := tok } : Except PyErr GitRef)) =
                  .ok ref2 := h
            cases hbt : b.branchTrack (ref.name ++ suffix) with
            | error e =>
              rw [hbt, andThenE_error] at h
              exact absurd h (by simp)
            | ok n =>
              rw [hbt, andThenE_ok] at h
              injection h with h2
              subst h2
              exact ⟨rfl, rfl, rfl, rfl⟩
        · replace h : (.ok ref : Except PyErr GitRef) = .ok ref2 := by
            rw [← h]
            exact (if_neg hrc).symm
          injection h with h2
          subst h2
          exact ⟨rfl, rfl, rfl, rfl⟩

/-- C2 witness: the empty suffix passes through unchanged, and a concrete
applied override preserves `name`, `source`, `is_remote`, `creatordate`. -/
theorem c2_override_witness :
    applyOverride bOverrideW [] refHeadsW = .ok refHeadsW ∧
    (refHeadsOvW.name = refHeadsW.name ∧
      refHeadsOvW.source = refHeadsW.source ∧
      refHeadsOvW.is_remote = refHeadsW.is_remote ∧
      refHeadsOvW.creatordate = refHeadsW.creatordate) :=
  ⟨(c2_override_changes_only_commit_refname bOverrideW [] refHeadsW
      refHeadsW).1 rfl,
   (c2_override_changes_only_commit_refname bOverrideW (("-ov").data)
      refHeadsW refHeadsOvW).2 rfl⟩

/-- C7: `file_exists` is a pure boolean report of the completed existence
query: returncode 0 gives `true`, any other returncode ("not found" or a
malformed path spec alike) gives `false`, and it raises only when the query
invocation itself raised. -/
theorem c7_file_exists_boolean (b : GitBackend) (sep : Char)
    (refname filename : List Char) :
    (∀ rc : Int, b.catFile (catFileSpec sep refname filename) = .ok rc →
      file_exists b sep refname filename = .ok (rc == 0)) ∧
    (∀ rc : Int, b.catFile (catFileSpec sep refname filename) = .ok rc →
      rc ≠ 0 → file_exists b sep refname filename = .ok false) ∧
    (∀ e, b.catFile (catFileSpec sep refname filename) = .error e →
      file_exists b sep refname filename = .error e) := by
  refine ⟨?_, ?_, ?_⟩
  · intro rc h
    unfold file_exists
    rw [h, andThenE_ok]
  · intro rc h hne
    unfold file_exists
    rw [h, andThenE_ok]
    have hbeq : (rc == 0) = false := beq_eq_false_iff_ne.mpr hne
    show Except.ok (rc == 0) = .ok false
    rw [hbeq]
  · intro e h
    unfold file_exists
    rw [h, andThenE_error]

/-- C7 witness: a "not found" returncode (1) is reported as `ok false`, a
zero returncode as `ok true`. -/
theorem c7_file_exists_witness :
    file_exists bMissingW '/' (("refs/heads/main").data)
      (("conf.py").data) = .ok false ∧
    file_exists bAllOkW '/' (("refs/heads/main").data)
      (("conf.py").data) = .ok true := by
  constructor
  · exact (c7_file_exists_boolean bMissingW '/' (("refs/heads/main").data)
      (("conf.py").data)).2.1 1 rfl (by decide)
  · exact (c7_file_exists_boolean bAllOkW '/' (("refs/heads/main").data)
      (("conf.py").data)).1 0 rfl

/-- C10: at import time the module reads `os.environ["DEBUG"]`: a missing
variable raises `KeyError`; a non-empty value selects debug-level logging;
the empty string selects info-level logging. -/
theorem c10_debug_env_mandatory (env : List Char → Option (List Char)) :
    (env (("DEBUG").data) = none →
      moduleInitLevel env = .error .keyError) ∧
    (∀ v, env (("DEBUG").data) = some v → v ≠ [] →
      moduleInitLevel env = .ok .debug) ∧
    (env (("DEBUG").data) = some [] → moduleInitLevel env = .ok .info) := by
  refine ⟨?_, ?_, ?_⟩
  · intro h
    unfold moduleInitLevel
    rw [h]
  · intro v h hv
    unfold moduleInitLevel
    rw [h]
    cases v with
    | nil => exact absurd rfl hv
    | cons a t => rfl
  · intro h
    unfold moduleInitLevel
    rw [h]
    rfl

/-- C10 witness: concrete environments for the three behaviors. -/
theorem c10_debug_env_witness :
    moduleInitLevel (fun _ => none) = .error .keyError ∧
    moduleInitLevel (fun _ => some (("1").data)) = .ok .debug ∧
    moduleInitLevel (fun _ => some []) = .ok .info :=
  ⟨(c10_debug_env_mandatory (fun _ => none)).1 rfl,
   (c10_debug_env_mandatory (fun _ => some (("1").data))).2.1
      (("1").data) rfl (by decide),
   (c10_debug_env_mandatory (fun _ => some [])).2.2 rfl⟩

/-- C3: after the category whitelist, override resolution runs first and the
required-file check probes the (possibly overridden) refname: the reference
is yielded iff every required path other than the literal "." exists there,
and "." entries are discarded without any probe. -/
theorem c3_required_files_after_override (b : GitBackend) (cfg : Config)
    (sep : Char) (files : List (List Char)) (ref ref2 : GitRef)
    (hacc : categoryAccept cfg ref = true)
    (hov : applyOverride b cfg.smv_refs_override_suffix ref = .ok ref2)
    (hprobe : ∀ f ∈ files, f ≠ (".").data →
      ∃ bl, file_exists b sep ref2.refname f = .ok bl) :
    (processRef b cfg sep files ref = .ok (some ref2) ↔
      ∀ f ∈ files, f ≠ (".").data →
        file_exists b sep ref2.refname f = .ok true) ∧
    processRef b cfg sep files ref =
      processRef b cfg sep
        (files.filter (fun f => !(f == (".").data))) ref := by
  obtain ⟨ms, hms, hiff⟩ := missingFiles_ok_iff b sep ref2.refname files hprobe
  have h1 : processRef b cfg sep files ref =
      andThenE (missingFiles b sep ref2.refname files) (fun missing =>
        if missing.isEmpty then .ok (some ref2) else .ok none) := by
    unfold processRef
    rw [if_pos hacc, hov, andThenE_ok]
  constructor
  · rw [h1, hms, andThenE_ok]
    cases ms with
    | nil =>
      have hred : (if ([] : List (List Char)).isEmpty then
          (.ok (some ref2) : Except PyErr (Option GitRef)) else .ok none) =
          .ok (some ref2) := rfl
      rw [hred]
      exact ⟨fun _ => hiff.mp rfl, fun _ => rfl⟩
    | cons m mstail =>
      have hred : (if (m :: mstail).isEmpty then
          (.ok (some ref2) : Except PyErr (Option GitRef)) else .ok none) =
          .ok none := rfl
      rw [hred]
      constructor
      · intro hcontra
        exact absurd hcontra (by simp)
      · intro hall
        exact absurd (hiff.mpr hall) (List.cons_ne_nil m mstail)
  · have h2 : processRef b cfg sep
        (files.filter (fun f => !(f == (".").data))) ref =
        andThenE (missingFiles b sep ref2.refname
          (files.filter (fun f => !(f == (".").data)))) (fun missing =>
            if missing.isEmpty then .ok (some ref2) else .ok none) := by
      unfold processRef
      rw [if_pos hacc, hov, andThenE_ok]
    rw [h1, h2, missingFiles_drop_dot]

/-- C3 witness: a concrete accepted tag reference with one required file
that the backend reports present is yielded. -/
theorem c3_required_files_witness :
    processRef bAllOkW cfgTagsW '/' [(("conf.py").data)] refTagsW =
      .ok (some refTagsW) := by
  have h := c3_required_files_after_override bAllOkW cfgTagsW '/'
    [(("conf.py").data)] refTagsW refTagsW rfl rfl
    (by
      intro f hf hfd
      have hfc : f = ("conf.py").data := by simpa using hf
      subst hfc
      exact ⟨true, rfl⟩)
  exact h.1.mpr (by
    intro f hf hfd
    have hfc : f = ("conf.py").data := by simpa using hf
    subst hfc
    rfl)

/-- C4 counterexample: a line with exactly three tab-separated fields and a
refname that fully matches the pattern is NOT yielded — its unparseable
creator date raises instead, so the claim's "yields iff three fields and
matching refname, else silently discarded" is false on this input. -/
theorem c4_scan_line_counterexample :
    pySplit '\t' (pyStrip badLineC4) =
      [(("c").data), (("refs/heads/main").data), (("bogus").data)] ∧
    parseRefname (("refs/heads/main").data) ≠ none ∧
    processLine badLineC4 = .fatal .valueError := by
  exact ⟨rfl, by decide, rfl⟩

/-- C4 (amended): for a line whose creator-date field parses, the scanner
yields a reference iff the line has exactly three tab-separated fields and
the refname matches `refs/(heads|tags|remotes/<remote>)/<name>`; a line
with a different field count is silently skipped, and skipped lines do not
abort enumeration. (As stated, the claim fails when the creator date of a
three-field line does not parse: that aborts the scan instead — see C6/C9.) -/
theorem c4_scan_line_amended (line : List Char) :
    ((pySplit '\t' (pyStrip line)).length ≠ 3 →
      processLine line = .skipped) ∧
    (∀ f0 f1 f2 d, pySplit '\t' (pyStrip line) = [f0, f1, f2] →
      strptimeISO f2 = some d →
      ((processLine line = .skipped ↔ parseRefname f1 = none) ∧
       (∀ sn, parseRefname f1 = some sn →
         processLine line = .yielded
           { name := sn.2, commit := f0, source := sn.1,
             is_remote := (("remotes/").data).isPrefixOf sn.1,
             refname := f1, creatordate := d }))) ∧
    (processLine line = .skipped →
      ∀ ls, scanLines (line :: ls) = scanLines ls) := by
  refine ⟨?_, ?_, ?_⟩
  · intro hne
    unfold processLine
    cases hsp : pySplit '\t' (pyStrip line) with
    | nil => rfl
    | cons a tail =>
      cases tail with
      | nil => rfl
      | cons b tail2 =>
        cases tail2 with
        | nil => rfl
        | cons c tail3 =>
          cases tail3 with
          | nil =>
            refine absurd ?_ hne
            rw [hsp]
            rfl
          | cons e tail4 => rfl
  · intro f0 f1 f2 d hsp hd
    have h2 : processLine line =
        match parseRefname f1 with
        | none => .skipped
        | some sn =>
          .yielded
            { name := sn.2, commit := f0, source := sn.1,
              is_remote := (("remotes/").data).isPrefixOf sn.1,
              refname := f1, creatordate := d } := by
      rw [processLine_three f0 f1 f2 line hsp, hd]
    constructor
    · rw [h2]
      cases hpr : parseRefname f1 with
      | none => exact iff_of_true rfl rfl
      | some sn =>
        exact iff_of_false (fun hcontra => LineResult.noConfusion hcontra)
          (fun hcontra => Option.noConfusion hcontra)
    · intro sn hsn
      rw [h2, hsn]
  · intro hskip ls
    conv_lhs => rw [scanLines]
    rw [hskip]

/-- C4 witness: a fully well-formed line is yielded as its reference. -/
theorem c4_scan_line_witness :
    processLine goodLineC4 = .yielded goodRefC4 := by
  have h := (c4_scan_line_amended goodLineC4).2.1 (("c").data)
    (("refs/heads/main").data) (("2020-01-01 00:00:00 +0000").data)
    dt0 rfl rfl
  exact h.2 ((("heads").data), (("main").data)) rfl

/-- C5: whitelist matching is prefix-anchored `re.match` semantics: the
category step accepts iff the configured pattern matches the candidate from
its start (some prefix, not necessarily the full string); pattern `v1`
matches `v1.2.3` even though they differ, and the fully anchored pattern of
`^v\d+\.\d+$` rejects `v2.0-rc` while accepting `v1.2`. -/
theorem c5_whitelists_prefix_anchored :
    (∀ (r : Regex) (s : List Char), r.reMatch s = true ↔
      ∃ p q, s = p ++ q ∧ Regex.matchHere r p q.isEmpty = true) ∧
    (∀ (cfg : Config) (ref : GitRef) (wl : Regex),
      ref.source = ("tags").data → cfg.smv_tag_whitelist = some wl →
      (categoryAccept cfg ref = true ↔ wl.reMatch ref.name = true)) ∧
    (∀ (cfg : Config) (ref : GitRef) (wl : Regex),
      ref.source = ("heads").data → cfg.smv_branch_whitelist = some wl →
      (categoryAccept cfg ref = true ↔ wl.reMatch ref.name = true)) ∧
    Regex.reMatch (Regex.lit (("v1").data)) (("v1.2.3").data) = true ∧
    (("v1").data ≠ ("v1.2.3").data) ∧
    Regex.reMatch exactVersionPat (("v2.0-rc").data) = false ∧
    Regex.reMatch exactVersionPat (("v1.2").data) = true := by
  refine ⟨?_, ?_, ?_, by decide, by decide, by decide, by decide⟩
  · exact fun r s => reMatchAux_iff s r
  · intro cfg ref wl h1 h2
    unfold categoryAccept
    rw [h1, if_pos rfl, h2]
  · intro cfg ref wl h1 h2
    unfold categoryAccept
    rw [h1, if_neg (show ¬((("heads").data : List Char) = ("tags").data)
      by decide), if_pos rfl, h2]

/-- C5 witness: the tag whitelist pattern `v` accepts the tag `v1.0` by
matching only its first character. -/
theorem c5_prefix_anchored_witness :
    categoryAccept cfgTagsW refTagsW = true :=
  ((c5_whitelists_prefix_anchored).2.1 cfgTagsW refTagsW
    (Regex.lit (("v").data)) rfl rfl).mpr (by decide)

/-- C6: a three-field line whose creator date does not parse is fatal: the
line maps to a raised `ValueError` and the whole enumeration aborts with it
rather than skipping just that line. -/
theorem c6_bad_creatordate_fatal (line f0 f1 f2 : List Char)
    (hsplit : pySplit '\t' (pyStrip line) = [f0, f1, f2])
    (hdate : strptimeISO f2 = none) :
    processLine line = .fatal .valueError ∧
    ∀ pre post, (∀ l ∈ pre, ∀ e, processLine l ≠ .fatal e) →
      scanLines (pre ++ line :: post) = .error .valueError := by
  have hpl : processLine line = .fatal .valueError := by
    rw [processLine_three f0 f1 f2 line hsplit, hdate]
  exact ⟨hpl, fun pre post hpre =>
    scanLines_append_fatal line .valueError hpl pre hpre post⟩

/-- C6 witness: a concrete listing with one bad-date line aborts. -/
theorem c6_bad_creatordate_witness :
    scanLines [badLineC6] = .error .valueError :=
  (c6_bad_creatordate_fatal badLineC6 (("c").data) (("x").data)
    (("nope").data) rfl rfl).2 [] []
    (fun l hl => absurd hl (List.not_mem_nil l))

/-- C8 counterexample: on output `/repo` followed by two newlines the code
returns `/repo`, not the `/repo`-plus-one-newline that removing a single
trailing newline would give: `rstrip` removes every trailing newline. -/
theorem c8_single_trim_counterexample :
    get_toplevel_path (("/repo\n\n").data) = ("/repo").data ∧
    get_toplevel_path (("/repo\n\n").data) ≠ ("/repo\n").data := by
  exact ⟨rfl, by decide⟩

/-- C8 (amended): `get_toplevel_path` returns the backend output with ALL
trailing newlines trimmed: the output is the result followed by some run of
newlines, and the result itself never ends in a newline. -/
theorem c8_trims_all_trailing_newlines (output : List Char) :
    ∃ k, output = get_toplevel_path output ++ List.replicate k '\n' ∧
      (get_toplevel_path output).getLast? ≠ some '\n' := by
  obtain ⟨k, hk, hh⟩ := dropNl_spec output.reverse
  refine ⟨k, ?_, ?_⟩
  · have h2 := congrArg List.reverse hk
    rw [List.reverse_reverse, List.reverse_append,
      List.reverse_replicate] at h2
    exact h2
  · show ((output.reverse.dropWhile (fun c => c == '\n')).reverse).getLast? ≠
      some '\n'
    rw [List.getLast?_reverse]
    exact hh

/-- C9: the creator date of a three-field line is parsed before the refname
pattern is checked, so a line whose refname would not match but whose date
is unparseable aborts the scan instead of being silently discarded. -/
theorem c9_date_parsed_before_refname (line f0 f1 f2 : List Char)
    (hsplit : pySplit '\t' (pyStrip line) = [f0, f1, f2])
    (href : parseRefname f1 = none)
    (hdate : strptimeISO f2 = none) :
    processLine line = .fatal .valueError ∧
    processLine line ≠ .skipped ∧
    scanLines [line] = .error .valueError := by
  have hpl : processLine line = .fatal .valueError := by
    rw [processLine_three f0 f1 f2 line hsplit, hdate]
  refine ⟨hpl, ?_, ?_⟩
  · rw [hpl]
    exact fun hcontra => LineResult.noConfusion hcontra
  · conv_lhs => rw [scanLines]
    rw [hpl]

/-- C9 witness: the non-matching refname `HEAD` with a bad date is fatal,
not skipped. -/
theorem c9_order_witness :
    processLine badLineC9 = .fatal .valueError ∧
    parseRefname (("HEAD").data) = none :=
  ⟨(c9_date_parsed_before_refname badLineC9 (("c").data) (("HEAD").data)
      (("bogus").data) rfl rfl rfl).1, rfl⟩
